import Mathlib

/-!
Verification of the ConfigEditor data layer.

This file gives a shallow embedding, in Lean, of the parts of the
ConfigEditor repository that carry algorithmic content:

- ConfigEditor/data_manager.py: the DataManager store (load, save,
  snapshots, proxy mapping) and the AnyDataHandler path navigation
  (replace_indirect, _navigate_hierarchy, _access_item).
- ConfigEditor/config_file.py: the overriding ConfigFile.save.
- ConfigEditor/structured_text.py: to_text, parse_dict, parse_list,
  parse_text, validate_format, data_category.
- ConfigEditor/item_widget.py: the edit handler on_widget_changed.

Python values are modelled by the inductive type Value below: documents
loaded from YAML or JSON consist of dicts, lists, strings, ints, bools
and None, so those are the constructors (floats and tuples do not occur
in such documents and are omitted; the tuple branch of _access_item is
unreachable for them).  Python dicts are modelled as insertion-ordered
association lists with unique keys; in-place mutation is rendered as
functional rebuilding along the navigated path.  Exceptions are modelled
with Except or with explicit result inductives; print logging is dropped.
File input and output is modelled by its observable effect: the parsed
document is a parameter of the load model, and save returns the list of
write attempts it makes.  The regular expressions of structured_text are
embedded as executable character-level parsers with the same acceptance
and capture behaviour, documented at each definition.
-/

/-- Model of Python values as found in YAML or JSON loaded documents. -/
inductive Value where
  | vNone
  | vBool (b : Bool)
  | vInt (n : Int)
  | vStr (s : String)
  | vList (xs : List Value)
  | vDict (es : List (String × Value))

/-- Lookup in a Python dict modelled as an association list: first match.
Corresponds to d.get(k) returning None when absent (here: none). -/
def dictGet : List (String × Value) → String → Option Value
  | [], _ => none
  | (k2, v) :: t, k => if k2 == k then some v else dictGet t k

/-- Python dict assignment d[k] = v: update in place when the key exists,
otherwise append, preserving insertion order. -/
def dictSet : List (String × Value) → String → Value → List (String × Value)
  | [], k, v => [(k, v)]
  | (k2, v2) :: t, k, v => if k2 == k then (k, v) :: t else (k2, v2) :: dictSet t k v

/-- Lookup in a Python dict of strings (the proxy mapping): first match. -/
def lookupStr : List (String × String) → String → Option String
  | [], _ => none
  | (k2, v) :: t, k => if k2 == k then some v else lookupStr t k

/-- Python dict assignment for a dict of strings. -/
def lookupStrSet : List (String × String) → String → String → List (String × String)
  | [], k, v => [(k, v)]
  | (k2, v2) :: t, k, v => if k2 == k then (k, v) :: t else (k2, v2) :: lookupStrSet t k v

/-- The str.join of Python: joinSep sep l concatenates l with sep between
consecutive elements. -/
def joinSep (sep : String) : List String → String
  | [] => ""
  | [x] => x
  | x :: y :: t => x ++ sep ++ joinSep sep (y :: t)

mutual
/-- Python repr of a value, used by str for containers.  For strings the
repr quoting is simplified to single quotes without escaping; the claims
only ever apply it to scalars. -/
def pyRepr : Value → String
  | .vNone => "None"
  | .vBool true => "True"
  | .vBool false => "False"
  | .vInt n => toString n
  | .vStr s => String.singleton (Char.ofNat 39) ++ s ++ String.singleton (Char.ofNat 39)
  | .vList xs => "[" ++ joinSep (", ") (pyReprL xs) ++ "]"
  | .vDict es => "\x7b" ++ joinSep (", ") (pyReprD es) ++ "\x7d"
termination_by structural v => v

/-- Reprs of the elements of a list value. -/
def pyReprL : List Value → List String
  | [] => []
  | x :: t => pyRepr x :: pyReprL t
termination_by structural xs => xs

/-- Reprs of the entries of a dict value. -/
def pyReprD : List (String × Value) → List String
  | [] => []
  | kv :: t =>
    (String.singleton (Char.ofNat 39) ++ kv.1 ++ String.singleton (Char.ofNat 39)
      ++ ": " ++ pyRepr kv.2) :: pyReprD t
termination_by structural es => es
end

/-- Python str() of a value: the string itself for strings, repr-like
rendering otherwise (True, False, None, decimal integers). -/
def pyStr : Value → String
  | .vStr s => s
  | v => pyRepr v

/-- Python truthiness of a value: None, False, 0, empty string, empty
list and empty dict are falsy. -/
def pyTruthy : Value → Bool
  | .vNone => false
  | .vBool b => b
  | .vInt n => n != 0
  | .vStr s => !s.data.isEmpty
  | .vList xs => !xs.isEmpty
  | .vDict es => !es.isEmpty

/-- Errors raised inside AnyDataHandler navigation.  These are exactly the
exception classes that the except clause of _access_item catches:
KeyError, IndexError, ValueError and TypeError. -/
inductive NavErr where
  | keyError
  | indexError
  | valueError
  | typeError
deriving DecidableEq

/-- Exceptions that escape _access_item to its caller.  The only one is
the AttributeError from calling .get on a non-dict inside
replace_indirect, which runs before the try block of _access_item. -/
inductive PyExc where
  | attributeError
deriving DecidableEq

/-- Splits a char list at the first occurrence of c; none when c does not
occur.  Embeds the Python test (c in key) followed by key.split(c, 1). -/
def splitAtFirstChar (c : Char) : List Char → Option (List Char × List Char)
  | [] => none
  | x :: xs =>
    if x == c then some ([], xs)
    else
      match splitAtFirstChar c xs with
      | none => none
      | some (a, b) => some (x :: a, b)

/-- Python str.split(sep) for a one-char separator: returns the (possibly
empty) segments between occurrences of the separator; the empty string
yields one empty segment. -/
def splitOnChar (c : Char) : List Char → List (List Char)
  | [] => [[]]
  | x :: xs =>
    if x == c then [] :: splitOnChar c xs
    else
      match splitOnChar c xs with
      | [] => [[x]]
      | seg :: t => (x :: seg) :: t

/-- Python str.isdigit for ASCII content: nonempty and all digits. -/
def isDigitStr (s : String) : Bool :=
  !s.data.isEmpty && s.data.all Char.isDigit

/-- Decimal value of a digit string, as computed by Python int(). -/
def digitsToNat (cs : List Char) : Nat :=
  cs.foldl (fun n c => 10 * n + (c.toNat - 48)) 0

/-- AnyDataHandler._validate_index: a list index must be a pure digit
string; anything else raises ValueError. -/
def validate_index (k : String) : Except NavErr Nat :=
  if isDigitStr k then .ok (digitsToNat k.data) else .error .valueError

/-- AnyDataHandler.replace_indirect: when the key contains an at sign,
split once at it, look the reference up as a top-level key of the data
(Python data.get, an AttributeError when data is not a dict), and splice
the str() of the found value after the prefix; an absent reference or a
None value logs a warning and yields none (the Python None key). -/
def replace_indirect (data : Value) (key : String) : Except PyExc (Option String) :=
  match splitAtFirstChar '@' key.data with
  | none => .ok (some key)
  | some (mainK, refK) =>
    match data with
    | .vDict es =>
      match dictGet es (String.mk refK) with
      | some Value.vNone => .ok none
      | some v => .ok (some (String.mk mainK ++ pyStr v))
      | none => .ok none
    | _ => .error .attributeError

/-- The intermediate-segment loop of AnyDataHandler._navigate_hierarchy
with create_missing false (the get path): walk each key through dicts (a
missing key raises KeyError) and lists (a non-digit index raises
ValueError, an out-of-range one IndexError); reaching any other value
raises TypeError. -/
def navWalk : Value → List String → Except NavErr Value
  | t, [] => .ok t
  | t, k :: ks =>
    match t with
    | .vDict es =>
      match dictGet es k with
      | some t2 => navWalk t2 ks
      | none => .error .keyError
    | .vList xs =>
      match validate_index k with
      | .error e => .error e
      | .ok i => if h : i < xs.length then navWalk (xs.get ⟨i, h⟩) ks else .error .indexError
    | _ => .error .typeError

/-- AnyDataHandler._navigate_hierarchy (get path): rejects keys containing
an opening bracket with TypeError, splits the key on dots, walks all but
the last segment, and returns the final container with the final key. -/
def navigate_hierarchy (data : Value) (key : String) : Except NavErr (Value × String) :=
  if key.data.contains '[' then .error .typeError
  else
    let ks := splitOnChar '.' key.data
    match navWalk data (ks.dropLast.map (fun l => String.mk l)) with
    | .error e => .error e
    | .ok c => .ok (c, String.mk (ks.getLast?.getD []))

/-- The final read of _access_item: index the returned container with the
final key.  A dict raises KeyError when the key is absent; a list
validates the index and raises IndexError out of range; any other
container falls through every isinstance branch and the function returns
None. -/
def finalGet (container : Value) (fk : String) : Except NavErr Value
  :=
  match container with
  | .vDict es =>
    match dictGet es fk with
    | some v => .ok v
    | none => .error .keyError
  | .vList xs =>
    match validate_index fk with
    | .error e => .error e
    | .ok i => if h : i < xs.length then .ok (xs.get ⟨i, h⟩) else .error .indexError
  | _ => .ok .vNone

/-- Pads a Python list with copies of pad until index i is in range,
modelling the append loop (while index >= len: append). -/
def listPad (xs : List Value) (i : Nat) (pad : Value) : List Value :=
  xs ++ List.replicate (i + 1 - xs.length) pad

/-- Functional rendering of the set path: _navigate_hierarchy with
create_missing true followed by the final assignment of _access_item.
In-place mutation becomes rebuilding along the path: missing intermediate
dict keys are created as empty dicts, list indices are validated and the
list padded with empty dicts (final level: None) up to the index; the
final assignment into a dict or list stores the value, while a scalar
final container matches no isinstance branch and nothing is stored. -/
def navSet : Value → List String → Value → Except NavErr Value
  | t, [], _ => .ok t
  | t, [k], value =>
    match t with
    | .vDict es => .ok (.vDict (dictSet es k value))
    | .vList xs =>
      match validate_index k with
      | .error e => .error e
      | .ok i => .ok (.vList ((listPad xs i .vNone).set i value))
    | _ => .ok t
  | t, k :: k2 :: ks, value =>
    match t with
    | .vDict es =>
      match navSet ((dictGet es k).getD (.vDict [])) (k2 :: ks) value with
      | .error e => .error e
      | .ok t2 => .ok (.vDict (dictSet es k t2))
    | .vList xs =>
      match validate_index k with
      | .error e => .error e
      | .ok i =>
        let xs2 := listPad xs i (.vDict [])
        match navSet (xs2.getD i .vNone) (k2 :: ks) value with
        | .error e => .error e
        | .ok t2 => .ok (.vList (xs2.set i t2))
    | _ => .error .typeError

/-- AnyDataHandler.get via _access_item with set_item false: resolve the
indirect reference (its AttributeError propagates), return None when the
resolution failed, then navigate and read inside a try block whose except
clause catches KeyError, IndexError, ValueError and TypeError, logs, and
returns None. -/
def accessItemGet (data : Value) (key : String) : Except PyExc Value :=
  match replace_indirect data key with
  | .error e => .error e
  | .ok none => .ok .vNone
  | .ok (some key2) =>
    match navigate_hierarchy data key2 with
    | .error _ => .ok .vNone
    | .ok (c, fk) =>
      match finalGet c fk with
      | .error _ => .ok .vNone
      | .ok v => .ok v

/-- AnyDataHandler.set via _access_item with set_item true: as for get,
but navigating with create_missing and assigning at the final key; every
caught navigation error leaves the document unchanged, as does an
unresolved indirect reference. -/
def accessItemSet (data : Value) (key : String) (value : Value) : Except PyExc Value :=
  match replace_indirect data key with
  | .error e => .error e
  | .ok none => .ok data
  | .ok (some key2) =>
    if key2.data.contains '[' then .ok data
    else
      match navSet data ((splitOnChar '.' key2.data).map (fun l => String.mk l)) value with
      | .error _ => .ok data
      | .ok d2 => .ok d2

/-- State of a DataManager instance (data_manager.py __init__), with two
effect traces: touched records the proxy files touched by touch_file.
The directory field and the handler object carry no behaviour relevant
here and are omitted. -/
structure DataManager where
  _data : Value := .vNone
  file_path : Option String := none
  unsaved_changes : Bool := false
  snapshots : List Value := []
  max_snapshots : Nat := 6
  proxy_mapping : List (String × String) := []
  touched : List String := []

/-- A freshly constructed DataManager, as built by __init__. -/
def DataManager.new : DataManager := {}

/-- DataManager.snapshot_push: when the stack has reached max_snapshots,
remove the second-oldest snapshot (index 1), then append a deep copy of
the current data.  Deep copying is the identity on immutable Lean values.
(Python list.pop(1) would raise IndexError when the stack holds fewer
than two entries; that can only happen with max_snapshots below 2, and
the theorems below assume at least 2, matching the default of 6.) -/
def DataManager.snapshot_push (dm : DataManager) : DataManager :=
  let s :=
    if dm.max_snapshots ≤ dm.snapshots.length then dm.snapshots.eraseIdx 1
    else dm.snapshots
  { dm with snapshots := s ++ [dm._data] }

/-- DataManager.snapshot_undo: with an empty stack do nothing; with more
than one snapshot pop the last and make it current; with exactly one
restore a deep copy of it, keeping the stack intact.  Any restore marks
the data as modified. -/
def DataManager.snapshot_undo (dm : DataManager) : DataManager :=
  match dm.snapshots with
  | [] => dm
  | [s0] => { dm with _data := s0, unsaved_changes := true }
  | s0 :: s1 :: t =>
    { dm with
      _data := (s0 :: s1 :: t).getLast (by simp),
      snapshots := (s0 :: s1 :: t).dropLast,
      unsaved_changes := true }

/-- DataManager.init_data: reset the snapshot stack, install the new
data, push the initial snapshot, set the data handler (no state here)
and set unsaved_changes to True. -/
def DataManager.init_data (dm : DataManager) (data : Value) : DataManager :=
  let dm2 := { dm with snapshots := [], _data := data }
  let dm3 := dm2.snapshot_push
  { dm3 with unsaved_changes := true }

/-- The success path of DataManager.load: clear the proxy mapping, record
the path, and hand the parsed document to init_data.  The document
produced by the subclass loader is a parameter; the failure branches
print and return False without reaching init_data. -/
def loadSuccess (dm : DataManager) (path : String) (doc : Value) : DataManager :=
  DataManager.init_data { dm with proxy_mapping := [], file_path := some path } doc

/-- Result of DataManager.save.  raisedValueError models the two
precondition checks; saved and writeFailed model the dirty branch with
the file write succeeding or raising (the latter is printed and False is
returned); noneReturn models the fall-through when there are no unsaved
changes (Python returns None). -/
inductive SaveResult where
  | raisedValueError
  | saved (dm : DataManager)
  | writeFailed (dm : DataManager)
  | noneReturn (dm : DataManager)


/-- DataManager.save: raise ValueError when the file path or the data is
None; otherwise, when dirty, push a snapshot and attempt the write (the
attempt is returned as the list of written paths; writeOk says whether
the external write raises).  On success the dirty flag clears. -/
def DataManager.save (dm : DataManager) (writeOk : Bool) : SaveResult × List String :=
  match dm.file_path with
  | none => (.raisedValueError, [])
  | some p =>
    match dm._data with
    | .vNone => (.raisedValueError, [])
    | _ =>
      if dm.unsaved_changes then
        let dm2 := dm.snapshot_push
        if writeOk then (.saved { dm2 with unsaved_changes := false }, [p])
        else (.writeFailed dm2, [p])
      else (.noneReturn dm, [])

/-- DataManager.set: mark unsaved changes, write through the handler
(setting the flag again), then look the exact key up in the proxy mapping
and touch the mapped proxy file if any.  The AttributeError that
replace_indirect can raise on a non-dict document propagates. -/
def DataManager.set (dm : DataManager) (key : String) (value : Value) : Except PyExc DataManager :=
  match accessItemSet dm._data key value with
  | .error e => .error e
  | .ok d2 =>
    let dm2 := { dm with _data := d2, unsaved_changes := true }
    match lookupStr dm2.proxy_mapping key with
    | some f => .ok { dm2 with touched := dm2.touched ++ [f] }
    | none => .ok dm2

/-- Result of DataManager.add_proxy: either completion or a ValueError
raised at the first already-registered key; the state at raise time keeps
the keys registered earlier in the same call. -/
inductive ProxyAdd where
  | ok (dm : DataManager)
  | raisedValueError (dm : DataManager)


/-- DataManager.add_proxy: register each key to the proxy file in order,
raising ValueError at the first key already present in the mapping. -/
def DataManager.add_proxy (dm : DataManager) (proxy_file : String) : List String → ProxyAdd
  | [] => .ok dm
  | k :: rest =>
    match lookupStr dm.proxy_mapping k with
    | some _ => .raisedValueError dm
    | none =>
      DataManager.add_proxy
        { dm with proxy_mapping := dm.proxy_mapping ++ [(k, proxy_file)] } proxy_file rest

/-- Result of the overriding ConfigFile.save: noopReturn when there are no
unsaved changes (no check of the data is reached); raisedRuntimeError for
any exception (wrapped and re-raised); savedOk on success. -/
inductive CfgSaveResult where
  | noopReturn (dm : DataManager)
  | raisedRuntimeError (dm : DataManager)
  | savedOk (dm : DataManager)


/-- Whether a ConfigFile.save outcome is a raised exception. -/
def CfgSaveResult.isRaised : CfgSaveResult → Bool
  | .raisedRuntimeError _ => true
  | _ => false

/-- ConfigFile.save (config_file.py): only when dirty, open the file for
writing — which truncates it on disk, recorded in the returned list even
when saving then fails — and run _save_data, which raises when the data
is falsy (None or empty); every exception is re-raised as RuntimeError.
With no file path the open itself raises, before any truncation. -/
def configFileSave (dm : DataManager) : CfgSaveResult × List String :=
  if dm.unsaved_changes then
    match dm.file_path with
    | none => (.raisedRuntimeError dm, [])
    | some p =>
      if pyTruthy dm._data then (.savedOk { dm with unsaved_changes := false }, [p])
      else (.raisedRuntimeError dm, [p])
  else (.noopReturn dm, [])

/-- Iterated snapshot_push: for each document in turn, make it the current
data and push it, as the snapshot-limit test of the repository does. -/
def pushMany (dm : DataManager) (docs : List Value) : DataManager :=
  docs.foldl (fun acc d => DataManager.snapshot_push { acc with _data := d }) dm

/-- structured_text.DataCategory. -/
inductive DataCategory where
  | SCALAR
  | LIST
  | DICT
  | COMPLEX
deriving DecidableEq

/-- Whether a value is a Python int, float, str or bool (the isinstance
test of data_category); None fails the test. -/
def isScalarElem : Value → Bool
  | .vInt _ => true
  | .vStr _ => true
  | .vBool _ => true
  | _ => false

/-- structured_text.data_category: None and scalars are SCALAR; a list or
dict all of whose elements (values) are scalars is LIST (DICT); anything
else is COMPLEX. -/
def data_category : Value → DataCategory
  | .vNone => .SCALAR
  | .vInt _ => .SCALAR
  | .vStr _ => .SCALAR
  | .vBool _ => .SCALAR
  | .vList xs => if xs.all isScalarElem then .LIST else .COMPLEX
  | .vDict es => if es.all (fun kv => isScalarElem kv.2) then .DICT else .COMPLEX

/-- structured_text.to_text: a dict renders its pairs as key, colon,
space, str of value, joined by comma-space; a list renders each element
as its str wrapped in single quotes, joined by comma-space; anything else
renders by str (every modelled value has one). -/
def to_text (item : Value) : String :=
  match item with
  | .vDict es => joinSep (", ") (es.map (fun kv => kv.1 ++ ": " ++ pyStr kv.2))
  | .vList xs =>
    joinSep (", ")
      (xs.map (fun e => String.singleton (Char.ofNat 39) ++ pyStr e ++ String.singleton (Char.ofNat 39)))
  | v => pyStr v

/-- The whitespace class of Python regular expressions (ASCII range):
space, tab, newline, carriage return, vertical tab, form feed. -/
def isWs (c : Char) : Bool :=
  c == ' ' || c == '\t' || c == '\n' || c == '\r' || c == Char.ofNat 11 || c == Char.ofNat 12

/-- Strips leading and trailing regex whitespace from a char list. -/
def trimList (cs : List Char) : List Char :=
  ((cs.dropWhile isWs).reverse.dropWhile isWs).reverse

/-- The value part of one DICT_PATTERN repetition.  After the first colon
the pattern is ws, a nonempty lazy run of non-comma chars, ws: an empty
remainder fails; a remainder of only whitespace is captured as its last
character (the greedy leading ws backtracks once); otherwise the capture
is the remainder with surrounding whitespace trimmed. -/
def parseVal (r : List Char) : Option String :=
  match r with
  | [] => none
  | _ =>
    let t := trimList r
    if t.isEmpty then some (String.mk [r.getLast?.getD ' ']) else some (String.mk t)

/-- One comma-free segment against one DICT_PATTERN repetition
(without its final comma): ws, a key starting with a non-ws non-colon
non-comma char and free of colons and commas, ws, colon, ws, value, ws.
The key is everything before the first colon, trimmed (it must be
nonempty); the value is parsed by parseVal. -/
def parseSegment (seg : List Char) : Option (String × String) :=
  match splitAtFirstChar ':' seg with
  | none => none
  | some (l, r) =>
    let k := trimList l
    if k.isEmpty then none
    else
      match parseVal r with
      | none => none
      | some v => some (String.mk k, v)

/-- Parses every comma-separated segment of a dict text. -/
def segsParse : List (List Char) → Option (List (String × String))
  | [] => some []
  | s :: t =>
    match parseSegment s with
    | none => none
    | some kv =>
      match segsParse t with
      | none => none
      | some rest => some (kv :: rest)

/-- String-valued dict assignment used to model the Python dict built by
parse_dict (later duplicates overwrite in place). -/
def strDictSet : List (String × String) → String → String → List (String × String)
  | [], k, v => [(k, v)]
  | (k2, v2) :: t, k, v => if k2 == k then (k, v) :: t else (k2, v2) :: strDictSet t k v

/-- structured_text.parse_dict: empty text parses to the empty dict;
otherwise the text must fully match a star of DICT_PATTERN repetitions
and the pairs are collected by findall.  Since neither keys nor values
may contain commas, each repetition consumes the text up to and
including exactly one comma (or the end, allowing one trailing comma),
so the repetitions coincide with the comma-separated segments; the final
dict keeps the last value for a repeated key.  The result is none when
Python raises ValueError. -/
def parse_dict (text : String) : Option (List (String × String)) :=
  if text.data.isEmpty then some []
  else
    let segs := splitOnChar ',' text.data
    let segs2 := if segs.getLast? = some [] then segs.dropLast else segs
    match segsParse segs2 with
    | none => none
    | some pairs => some (pairs.foldl (fun d kv => strDictSet d kv.1 kv.2) [])

/-- The two quote characters of LIST_PATTERN. -/
def isQuote (c : Char) : Bool :=
  c == Char.ofNat 39 || c == Char.ofNat 34

/-- Splits a char list at every char satisfying p, returning each segment
together with the delimiter char that ended it (none for the last). -/
def splitKeep (p : Char → Bool) : List Char → List (List Char × Option Char)
  | [] => [([], none)]
  | c :: cs =>
    if p c then ([], some c) :: splitKeep p cs
    else
      match splitKeep p cs with
      | [] => [([c], none)]
      | (seg, d) :: t => (c :: seg, d) :: t

/-- Whether a chunk between two quotes is a list separator, that is,
matches ws, comma, ws. -/
def isSepChunk (sep : List Char) : Bool :=
  match sep.dropWhile isWs with
  | ',' :: t => t.all isWs
  | _ => false

/-- Walks the quote-delimited chunks of a list text after its opening
quote.  When expecting an item, the chunk is the item body and must be
closed by the same quote char; when expecting a separator, either the
text ends in whitespace or the chunk is ws-comma-ws followed by the next
opening quote, again the same char (the backreference of LIST_PATTERN).
Item bodies contain no quote of either kind, mirroring the item class of
the pattern. -/
def chunkLoop (q : Char) (expectItem : Bool) : List (List Char × Option Char) → Option (List String)
  | [] => none
  | [(last, none)] =>
    if expectItem then none
    else if last.all isWs then some [] else none
  | (seg, some c) :: rest =>
    if expectItem then
      if c == q then
        match chunkLoop q false rest with
        | none => none
        | some items => some (String.mk seg :: items)
      else none
    else
      if c == q && isSepChunk seg then chunkLoop q true rest else none
  | (_, none) :: _ :: _ => none

/-- structured_text.parse_list: empty text parses to the empty list;
otherwise the text must fully match LIST_PATTERN — optional whitespace,
then one or more items each wrapped in the same quote char (single or
double), separated by ws-comma-ws, then optional whitespace — and the
item bodies are extracted (as findall does; findall agrees with the
full-match item bodies whenever no item contains a newline, and the
round-trip theorems below stay within that domain).  none models the
Python ValueError. -/
def parse_list (text : String) : Option (List String) :=
  if text.data.isEmpty then some []
  else
    match splitKeep isQuote text.data with
    | (ws0, some q) :: rest => if ws0.all isWs then chunkLoop q true rest else none
    | _ => none

/-- structured_text.validate_format with the regex engine injected: when
the value and the pattern are both truthy the result is full-match of the
pattern against the value; an empty value, or an absent or empty pattern,
is always valid. -/
def validate_format (fullmatch : String → String → Bool) (value : String)
    (regex : Option String) : Bool :=
  if value.data.isEmpty then true
  else
    match regex with
    | none => true
    | some r => if r.data.isEmpty then true else fullmatch r value

/-- The typed results of parse_text: a raw string, a parsed list of
strings, or a parsed dict of strings. -/
inductive ParsedVal where
  | pstr (s : String)
  | plist (xs : List String)
  | pdict (es : List (String × String))
deriving DecidableEq

/-- structured_text.parse_text: LIST and DICT parse via parse_list and
parse_dict, any exception returning the original text with False; SCALAR
returns the text with its validate_format verdict; COMPLEX logs a warning
and returns the text with False. -/
def parse_text (fullmatch : String → String → Bool) (text : String)
    (category : DataCategory) (rgx : Option String) : ParsedVal × Bool :=
  match category with
  | .LIST =>
    match parse_list text with
    | some xs => (.plist xs, true)
    | none => (.pstr text, false)
  | .DICT =>
    match parse_dict text with
    | some es => (.pdict es, true)
    | none => (.pstr text, false)
  | .SCALAR => (.pstr text, validate_format fullmatch text rgx)
  | .COMPLEX => (.pstr text, false)

/-- The Python value that item_widget passes to config.set for a
parse_text result: the raw string, the list of strings, or the dict of
strings. -/
def parsedToValue : ParsedVal → Value
  | .pstr s => .vStr s
  | .plist xs => .vList (xs.map Value.vStr)
  | .pdict es => .vDict (es.map (fun kv => (kv.1, Value.vStr kv.2)))

/-- ItemWidget.on_widget_changed: parse the widget text with the bound
category and pattern; when valid, write the parsed value into the store
with config.set (normal styling), otherwise leave the store untouched
(error styling).  The Bool returned is the validity flag driving the
styling; the final user callback carries no store effect. -/
def on_widget_changed (fullmatch : String → String → Bool) (dm : DataManager)
    (key text : String) (value_type : DataCategory) (rgx : Option String) :
    Except PyExc DataManager × Bool :=
  let pv := parse_text fullmatch text value_type rgx
  if pv.2 then (dm.set key (parsedToValue pv.1), true)
  else (.ok dm, false)

/-! ## Claim C1: state after a successful load -/

/-- An example document used by several concrete instances below. -/
def exDoc : Value := .vDict [("A", .vInt 1)]

/-- C1 counterexample: after a successful load the dirty flag is not
cleared — init_data ends with unsaved_changes = True, so a freshly
loaded store reports unsaved changes. -/
theorem c1_load_dirty_counterexample :
    (loadSuccess DataManager.new ("f.yml") exDoc).unsaved_changes ≠ false := by
  decide

/-- C1 amended: after every successful load the snapshot history is reset
to exactly one snapshot equal to the freshly loaded document (and the
proxy mapping is cleared and the path recorded), but the dirty flag is
set to True rather than cleared. -/
theorem c1_load_resets_history (dm : DataManager) (path : String) (d : Value)
    (h : 1 ≤ dm.max_snapshots) :
    (loadSuccess dm path d).snapshots = [d] ∧
    (loadSuccess dm path d)._data = d ∧
    (loadSuccess dm path d).unsaved_changes = true ∧
    (loadSuccess dm path d).proxy_mapping = [] ∧
    (loadSuccess dm path d).file_path = some path := by
  have hns : ¬ (dm.max_snapshots ≤ ([] : List Value).length) := by
    simp only [List.length_nil]
    omega
  simp [loadSuccess, DataManager.init_data, DataManager.snapshot_push, hns]

/-- C1 witness: the amended statement at a concrete store and document. -/
theorem c1_load_resets_history_witness :
    (loadSuccess DataManager.new ("f.yml") exDoc).snapshots = [exDoc] ∧
    (loadSuccess DataManager.new ("f.yml") exDoc)._data = exDoc ∧
    (loadSuccess DataManager.new ("f.yml") exDoc).unsaved_changes = true ∧
    (loadSuccess DataManager.new ("f.yml") exDoc).proxy_mapping = [] ∧
    (loadSuccess DataManager.new ("f.yml") exDoc).file_path = some ("f.yml") :=
  c1_load_resets_history DataManager.new ("f.yml") exDoc (by decide)

/-! ## Claim C6: undo at the boundary -/

/-- C6: when exactly one snapshot remains, snapshot_undo restores the
data to that sole initial snapshot, leaves the history at length one,
and is idempotent: undoing again changes nothing. -/
theorem c6_undo_boundary (dm : DataManager) (s : Value) (h : dm.snapshots = [s]) :
    dm.snapshot_undo._data = s ∧
    dm.snapshot_undo.snapshots = [s] ∧
    dm.snapshot_undo.snapshot_undo = dm.snapshot_undo := by
  simp [DataManager.snapshot_undo, h]

/-- C6 witness: the boundary undo at a concrete one-snapshot store. -/
theorem c6_undo_boundary_witness :
    (DataManager.snapshot_undo { DataManager.new with snapshots := [exDoc] })._data = exDoc ∧
    (DataManager.snapshot_undo { DataManager.new with snapshots := [exDoc] }).snapshots = [exDoc] ∧
    (DataManager.snapshot_undo
        { DataManager.new with snapshots := [exDoc] }).snapshot_undo
      = DataManager.snapshot_undo { DataManager.new with snapshots := [exDoc] } :=
  c6_undo_boundary { DataManager.new with snapshots := [exDoc] } exDoc rfl

/-! ## Claim C9: save preconditions -/

/-- A ConfigFile store with absent data and no unsaved changes. -/
def cfgNoop : DataManager :=
  { DataManager.new with _data := .vNone, file_path := some ("x.yml"), unsaved_changes := false }

/-- C9 counterexample: a ConfigFile store whose document is absent does
not raise on save when the dirty flag is clear — the overriding
ConfigFile.save returns silently before any data check, so not every
store raises a precondition error on an empty-document save. -/
theorem c9_save_counterexample :
    cfgNoop._data = Value.vNone ∧
    (configFileSave cfgNoop).1.isRaised = false ∧
    (configFileSave cfgNoop).2 = [] :=
  ⟨rfl, rfl, rfl⟩

/-- C9 amended: DataManager.save raises its ValueError before any write
attempt whenever the data is None or the path is unset, regardless of
the dirty flag; the overriding ConfigFile.save instead returns silently
whenever there are no unsaved changes (and when there are, it truncates
the file before its write can fail). -/
theorem c9_save_preconditions :
    (∀ (dm : DataManager) (w : Bool), dm._data = .vNone → dm.save w = (.raisedValueError, [])) ∧
    (∀ (dm : DataManager) (w : Bool), dm.file_path = none → dm.save w = (.raisedValueError, [])) ∧
    (∀ dm : DataManager, dm.unsaved_changes = false → configFileSave dm = (.noopReturn dm, [])) := by
  refine ⟨fun dm w h => ?_, fun dm w h => ?_, fun dm h => ?_⟩
  · cases hp : dm.file_path <;> simp [DataManager.save, hp, h]
  · simp [DataManager.save, h]
  · simp [configFileSave, h]

/-- C9 witness: the amended statement at concrete stores. -/
theorem c9_save_preconditions_witness :
    DataManager.save { DataManager.new with file_path := some ("x.yml") } true
      = (.raisedValueError, []) ∧
    DataManager.save { DataManager.new with _data := exDoc } true
      = (.raisedValueError, []) ∧
    configFileSave cfgNoop = (.noopReturn cfgNoop, []) :=
  ⟨c9_save_preconditions.1 _ true rfl,
   c9_save_preconditions.2.1 _ true rfl,
   c9_save_preconditions.2.2 _ rfl⟩

/-! ## Claim C10: empty scalar text bypasses the pattern -/

/-- C10: for every injected regex engine and every validation pattern,
parse_text on empty SCALAR text returns the empty string marked valid —
validate_format never consults the pattern for empty text — and the edit
handler therefore accepts the empty string and writes it to the document
through config.set. -/
theorem c10_empty_scalar_bypasses_pattern
    (fullmatch : String → String → Bool) (r : String) (dm : DataManager) (key : String) :
    parse_text fullmatch ("") .SCALAR (some r) = (.pstr (""), true) ∧
    on_widget_changed fullmatch dm key ("") .SCALAR (some r)
      = (dm.set key (.vStr ("")), true) :=
  ⟨rfl, rfl⟩

/-! ## Claim C3: traversal errors are caught inside the access layer -/

/-- C3 counterexample: walking through a scalar makes _navigate_hierarchy
raise its TypeError, but get on the same path returns None to the caller:
the error is caught inside _access_item, not raised. -/
theorem c3_swallowed_counterexample :
    navigate_hierarchy exDoc ("A.B.C") = .error .typeError ∧
    accessItemGet exDoc ("A.B.C") = .ok .vNone :=
  ⟨rfl, rfl⟩

/-- C3 amended: for keys without indirect references, every structural
navigation error (scalar traversal, bracket syntax, missing keys, bad or
out-of-range indices) is raised by _navigate_hierarchy but caught by the
except clause of _access_item, which logs and returns None for get and
leaves the document unchanged for set; the caller never sees the error. -/
theorem c3_traversal_errors_swallowed (data : Value) (key : String)
    (hat : splitAtFirstChar '@' key.data = none) :
    (∀ e : NavErr, navigate_hierarchy data key = .error e → accessItemGet data key = .ok .vNone) ∧
    (key.data.contains '[' = true →
      ∀ v : Value, accessItemSet data key v = .ok data ∧ accessItemGet data key = .ok .vNone) := by
  constructor
  · intro e hnav
    simp [accessItemGet, replace_indirect, hat, hnav]
  · intro hb v
    have hb2 : '[' ∈ key.data := by simpa using hb
    constructor
    · simp [accessItemSet, replace_indirect, hat, hb2]
    · simp [accessItemGet, replace_indirect, navigate_hierarchy, hat, hb2]

/-- C3 witness: the amended statement applied at a scalar-traversal path
and at a bracketed path of a concrete document. -/
theorem c3_traversal_errors_swallowed_witness :
    accessItemGet exDoc ("A.B.C") = .ok .vNone ∧
    accessItemSet exDoc ("A[0]") (.vInt 5) = .ok exDoc ∧
    accessItemGet exDoc ("A[0]") = .ok .vNone :=
  ⟨(c3_traversal_errors_swallowed exDoc ("A.B.C") rfl).1 .typeError rfl,
   ((c3_traversal_errors_swallowed exDoc ("A[0]") rfl).2 rfl (.vInt 5)).1,
   ((c3_traversal_errors_swallowed exDoc ("A[0]") rfl).2 rfl (.vInt 5)).2⟩

/-! ## Claim C4: indirect resolution -/

/-- The indirect-reference scenario document of the specification. -/
def D4 : Value :=
  .vDict [("HOME", .vStr ("A")), ("SITES", .vDict [("A", .vStr ("loc1")), ("B", .vStr ("loc2"))])]

/-- The scenario document after set HOME to B. -/
def D4B : Value :=
  .vDict [("HOME", .vStr ("B")), ("SITES", .vDict [("A", .vStr ("loc1")), ("B", .vStr ("loc2"))])]

/-- C4: indirect resolution precedes traversal.  On the scenario document
the indirect read returns loc1; after setting HOME to B it returns loc2;
and in general, whenever the referenced key is absent from a mapping
document (or holds None), get returns None and raises nothing. -/
theorem c4_indirect_resolution :
    accessItemGet D4 ("SITES.@HOME") = .ok (.vStr ("loc1")) ∧
    accessItemSet D4 ("HOME") (.vStr ("B")) = .ok D4B ∧
    accessItemGet D4B ("SITES.@HOME") = .ok (.vStr ("loc2")) ∧
    (∀ (es : List (String × Value)) (mainK refK : List Char) (key : String),
      splitAtFirstChar '@' key.data = some (mainK, refK) →
      (dictGet es (String.mk refK) = none ∨ dictGet es (String.mk refK) = some .vNone) →
      accessItemGet (.vDict es) key = .ok .vNone) := by
  refine ⟨rfl, rfl, rfl, ?_⟩
  intro es mainK refK key hsplit habs
  rcases habs with h | h <;> simp [accessItemGet, replace_indirect, hsplit, h]

/-- C4 witness: the general absence clause applied to the scenario
document with a dangling reference. -/
theorem c4_indirect_resolution_witness :
    accessItemGet D4 ("SITES.@GONE") = .ok .vNone :=
  c4_indirect_resolution.2.2.2
    [("HOME", .vStr ("A")), ("SITES", .vDict [("A", .vStr ("loc1")), ("B", .vStr ("loc2"))])]
    (String.toList ("SITES.")) (String.toList ("GONE")) ("SITES.@GONE") rfl (Or.inl rfl)

/-! ## Claim C8: proxy registration and touch -/

/-- Appending a fresh key to the proxy mapping makes it found with its
file. -/
theorem lookupStr_append_self (m : List (String × String)) (k f : String)
    (h : lookupStr m k = none) : lookupStr (m ++ [(k, f)]) k = some f := by
  induction m with
  | nil => simp [lookupStr]
  | cons kv t ih =>
    by_cases hk : kv.1 == k
    · exfalso
      simp [lookupStr, hk] at h
    · simp [lookupStr, hk] at h ⊢
      exact ih h

/-- replace_indirect never raises on a dict document: its AttributeError
needs a document without the get method. -/
theorem replace_indirect_dict_ok (es : List (String × Value)) (key : String) :
    ∃ o, replace_indirect (.vDict es) key = .ok o := by
  unfold replace_indirect
  rcases hsplit : splitAtFirstChar '@' key.data with _ | ⟨mainK, refK⟩
  · exact ⟨some key, rfl⟩
  · simp only
    rcases hg : dictGet es (String.mk refK) with _ | w
    · exact ⟨none, rfl⟩
    · cases w <;> exact ⟨_, rfl⟩

/-- On a dict document the handler set never raises: replace_indirect
cannot hit its AttributeError, and every navigation error is caught. -/
theorem accessItemSet_dict_ok (es : List (String × Value)) (key : String) (v : Value) :
    ∃ d2, accessItemSet (.vDict es) key v = .ok d2 := by
  rcases hres : accessItemSet (.vDict es) key v with e | d2
  · exfalso
    obtain ⟨o, ho⟩ := replace_indirect_dict_ok es key
    unfold accessItemSet at hres
    rw [ho] at hres
    cases o with
    | none => simp at hres
    | some key2 =>
      simp only at hres
      split at hres
      · simp at hres
      · split at hres <;> simp at hres
  · exact ⟨d2, rfl⟩

/-- C8: registering a key that is already mapped to a proxy file raises
ValueError and leaves the first registration in place — in particular
for two different proxy files — and set on a proxy-registered key of a
dict document succeeds and touches exactly the one registered proxy
file. -/
theorem c8_proxy_conflict_and_touch :
    (∀ (dm : DataManager) (k f1 f2 : String), lookupStr dm.proxy_mapping k = none →
      dm.add_proxy f1 [k] = .ok { dm with proxy_mapping := dm.proxy_mapping ++ [(k, f1)] } ∧
      DataManager.add_proxy { dm with proxy_mapping := dm.proxy_mapping ++ [(k, f1)] } f2 [k]
        = .raisedValueError { dm with proxy_mapping := dm.proxy_mapping ++ [(k, f1)] } ∧
      lookupStr (dm.proxy_mapping ++ [(k, f1)]) k = some f1) ∧
    (∀ (dm : DataManager) (key : String) (v : Value) (f : String) (es : List (String × Value)),
      dm._data = .vDict es → lookupStr dm.proxy_mapping key = some f →
      ∃ dm2, dm.set key v = .ok dm2 ∧ dm2.touched = dm.touched ++ [f]) := by
  constructor
  · intro dm k f1 f2 h
    refine ⟨?_, ?_, lookupStr_append_self dm.proxy_mapping k f1 h⟩
    · simp [DataManager.add_proxy, h]
    · simp [DataManager.add_proxy, lookupStr_append_self dm.proxy_mapping k f1 h]
  · intro dm key v f es hd hp
    obtain ⟨d2, hset⟩ := accessItemSet_dict_ok es key v
    refine ⟨{ dm with _data := d2, unsaved_changes := true, touched := dm.touched ++ [f] }, ?_, rfl⟩
    simp [DataManager.set, hd, hset, hp]

/-- C8 witness: the conflict clause and the touch clause at concrete
stores. -/
theorem c8_proxy_conflict_and_touch_witness :
    DataManager.add_proxy DataManager.new ("p1.txt") [("K")]
      = .ok { DataManager.new with proxy_mapping := [(("K"), ("p1.txt"))] } ∧
    DataManager.add_proxy { DataManager.new with proxy_mapping := [(("K"), ("p1.txt"))] }
        ("p2.txt") [("K")]
      = .raisedValueError { DataManager.new with proxy_mapping := [(("K"), ("p1.txt"))] } ∧
    (∃ dm2,
      DataManager.set
          { DataManager.new with _data := exDoc, proxy_mapping := [(("A"), ("p1.txt"))] }
          ("A") (.vInt 2)
        = .ok dm2 ∧
      dm2.touched = [("p1.txt")]) := by
  refine ⟨?_, ?_, ?_⟩
  · have h := (c8_proxy_conflict_and_touch.1 DataManager.new ("K") ("p1.txt") ("p2.txt") rfl).1
    simpa using h
  · have h := (c8_proxy_conflict_and_touch.1 DataManager.new ("K") ("p1.txt") ("p2.txt") rfl).2.1
    simpa using h
  · have h := c8_proxy_conflict_and_touch.2
      { DataManager.new with _data := exDoc, proxy_mapping := [(("A"), ("p1.txt"))] }
      ("A") (.vInt 2) ("p1.txt") [("A", .vInt 1)] rfl rfl
    simpa using h

/-! ## Claim C2: wildcard paths -/

/-- The wildcard scenario document of the specification. -/
def D2 : Value := .vDict [("SITES", .vDict [("A", .vInt 1), ("B", .vInt 2)])]

/-- The wildcard scenario document after the wildcard set below. -/
def D2star : Value := .vDict [("SITES", .vDict [("A", .vInt 1), ("B", .vInt 2), ("*", .vInt 7)])]

/-- C2 counterexample: on the scenario document the wildcard get returns
None, not the entries of the mapping, and the wildcard set is not a
no-op: it stores the value under the literal star key, changing the
document. -/
theorem c2_wildcard_counterexample :
    accessItemGet D2 ("SITES.*") = .ok .vNone ∧
    accessItemSet D2 ("SITES.*") (.vInt 7) = .ok D2star ∧
    D2star ≠ D2 :=
  ⟨rfl, rfl, by simp [D2star, D2]⟩

/-- After a dict assignment the assigned key holds the assigned value. -/
theorem dictGet_dictSet (es : List (String × Value)) (k : String) (v : Value) :
    dictGet (dictSet es k v) k = some v := by
  induction es with
  | nil => simp [dictGet, dictSet]
  | cons kv t ih =>
    by_cases hk : kv.1 == k
    · simp [dictGet, dictSet, hk]
    · simp [dictGet, dictSet, hk, ih]

/-- Assigning an absent key appends the pair at the end. -/
theorem dictSet_eq_append_of_none (es : List (String × Value)) (k : String) (v : Value)
    (h : dictGet es k = none) : dictSet es k v = es ++ [(k, v)] := by
  induction es with
  | nil => simp [dictSet]
  | cons kv t ih =>
    by_cases hk : kv.1 == k
    · exfalso
      simp [dictGet, hk] at h
    · simp [dictGet, hk] at h
      simp [dictSet, hk, ih h]

/-- C2 amended: _access_item implements no wildcard: the final star is
treated as a literal key.  For every document whose top level maps SITES
to a mapping without a star key, the wildcard get raises KeyError
internally and returns None — never the entries — and the wildcard set
appends the value under the star key inside the SITES mapping, changing
the document. -/
theorem c2_wildcard_literal (es sites : List (String × Value)) (x : Value)
    (h1 : dictGet es ("SITES") = some (.vDict sites))
    (h2 : dictGet sites ("*") = none) :
    accessItemGet (.vDict es) ("SITES.*") = .ok .vNone ∧
    accessItemSet (.vDict es) ("SITES.*") x
      = .ok (.vDict (dictSet es ("SITES") (.vDict (sites ++ [(("*"), x)])))) ∧
    Value.vDict (dictSet es ("SITES") (.vDict (sites ++ [(("*"), x)]))) ≠ .vDict es := by
  have e1 : splitAtFirstChar '@' ['S', 'I', 'T', 'E', 'S', '.', '*'] = none := rfl
  have e2 : (['S', 'I', 'T', 'E', 'S', '.', '*'].contains '[') = false := rfl
  have e3 : splitOnChar '.' ['S', 'I', 'T', 'E', 'S', '.', '*'] = [['S', 'I', 'T', 'E', 'S'], ['*']] := rfl
  have e4 : (String.mk ['S', 'I', 'T', 'E', 'S']) = ("SITES") := rfl
  have e5 : (String.mk ['*']) = ("*") := rfl
  refine ⟨?_, ?_, ?_⟩
  · simp only [accessItemGet, replace_indirect, navigate_hierarchy, navWalk, finalGet,
      e1, e2, e3, e4, e5, List.dropLast, List.map, List.getLast?, Option.getD, h1, h2]
    simp [List.getLast, e5, h2]
  · simp only [accessItemSet, replace_indirect, navSet, e1, e2, e3, e4, e5,
      List.map, h1, Option.getD]
    simp [dictSet_eq_append_of_none sites ("*") x h2]
  · intro h
    have h3 : dictSet es ("SITES") (.vDict (sites ++ [(("*"), x)])) = es := by
      injection h
    have h4 : dictGet (dictSet es ("SITES") (.vDict (sites ++ [(("*"), x)]))) ("SITES")
        = dictGet es ("SITES") := by rw [h3]
    rw [dictGet_dictSet, h1] at h4
    have h5 : sites ++ [(("*"), x)] = sites := by
      injection h4 with h4a
      injection h4a
    have h6 := congrArg List.length h5
    simp at h6

/-- C2 witness: the amended statement at the scenario document. -/
theorem c2_wildcard_literal_witness :
    accessItemGet D2 ("SITES.*") = .ok .vNone ∧
    accessItemSet D2 ("SITES.*") (.vInt 7)
      = .ok (.vDict (dictSet [("SITES", .vDict [("A", .vInt 1), ("B", .vInt 2)])] ("SITES")
          (.vDict ([("A", .vInt 1), ("B", .vInt 2)] ++ [(("*"), .vInt 7)])))) :=
  ⟨(c2_wildcard_literal [("SITES", .vDict [("A", .vInt 1), ("B", .vInt 2)])]
      [("A", .vInt 1), ("B", .vInt 2)] (.vInt 7) rfl rfl).1,
   (c2_wildcard_literal [("SITES", .vDict [("A", .vInt 1), ("B", .vInt 2)])]
      [("A", .vInt 1), ("B", .vInt 2)] (.vInt 7) rfl rfl).2.1⟩

/-! ## Claim C5: snapshot capacity and eviction -/

/-- Dropping fewer elements than the length preserves the last element. -/
theorem getLast?_drop_of_lt {α : Type} (l : List α) (k : Nat) (h : k < l.length) :
    (l.drop k).getLast? = l.getLast? := by
  induction l generalizing k with
  | nil => simp at h
  | cons a t ih =>
    cases k with
    | zero => rfl
    | succ k2 =>
      rw [List.drop_succ_cons]
      have ht : k2 < t.length := by simpa using h
      rw [ih k2 ht]
      have htne : t ≠ [] := by
        intro he
        rw [he] at ht
        simp at ht
      obtain ⟨b, L, rfl⟩ := List.exists_cons_of_ne_nil htne
      rw [List.getLast?_cons_cons]

/-- Pushing snapshots never changes the capacity. -/
theorem pushMany_max (docs : List Value) (dm : DataManager) :
    (pushMany dm docs).max_snapshots = dm.max_snapshots := by
  induction docs generalizing dm with
  | nil => rfl
  | cons d rest ih =>
    have hfold : pushMany dm (d :: rest)
        = pushMany (DataManager.snapshot_push { dm with _data := d }) rest := rfl
    rw [hfold, ih]
    rfl

/-- The snapshot stack invariant: starting from a stack s0 followed by at
most capacity-minus-one entries, pushing a sequence of documents keeps
s0 at the bottom and retains the most recent entries, evicting at index
one when full. -/
theorem pushMany_snapshots (docs : List Value) (dm : DataManager) (s0 : Value) (t : List Value)
    (hs : dm.snapshots = s0 :: t) (hN : 2 ≤ dm.max_snapshots)
    (ht : t.length + 1 ≤ dm.max_snapshots) :
    (pushMany dm docs).snapshots
      = s0 :: (t ++ docs).drop (t.length + docs.length + 1 - dm.max_snapshots) := by
  induction docs generalizing dm t with
  | nil =>
    have hidx : t.length + ([] : List Value).length + 1 - dm.max_snapshots = 0 := by
      simp
      omega
    rw [hidx]
    simpa [pushMany] using hs
  | cons d rest ih =>
    have hfold : pushMany dm (d :: rest)
        = pushMany (DataManager.snapshot_push { dm with _data := d }) rest := rfl
    rw [hfold]
    by_cases hcap : dm.max_snapshots ≤ t.length + 1
    · have heq : t.length + 1 = dm.max_snapshots := le_antisymm ht hcap
      have htne : t ≠ [] := by
        intro he
        rw [he] at heq
        simp at heq
        omega
      obtain ⟨t0, ttail, rfl⟩ := List.exists_cons_of_ne_nil htne
      have hs1 : (DataManager.snapshot_push { dm with _data := d }).snapshots
          = s0 :: (ttail ++ [d]) := by
        simp [DataManager.snapshot_push, hs]
        rw [if_pos (by simpa using hcap)]
        rfl
      have hm1 : (DataManager.snapshot_push { dm with _data := d }).max_snapshots
          = dm.max_snapshots := rfl
      have hlen1 : (ttail ++ [d]).length + 1 ≤ dm.max_snapshots := by
        simp at heq ⊢
        omega
      have hres := ih (DataManager.snapshot_push { dm with _data := d }) (ttail ++ [d]) hs1
        (by rw [hm1]; exact hN) (by rw [hm1]; exact hlen1)
      rw [hres, hm1]
      have hi1 : (ttail ++ [d]).length + rest.length + 1 - dm.max_snapshots = rest.length := by
        simp at heq ⊢
        omega
      have hi2 : (t0 :: ttail).length + (d :: rest).length + 1 - dm.max_snapshots
          = rest.length + 1 := by
        simp at heq ⊢
        omega
      rw [hi1, hi2]
      have hl1 : (ttail ++ [d]) ++ rest = ttail ++ d :: rest := by
        rw [List.append_assoc]
        rfl
      have hl2 : (t0 :: ttail) ++ d :: rest = t0 :: (ttail ++ d :: rest) := rfl
      rw [hl1, hl2, List.drop_succ_cons]
    · have hs1 : (DataManager.snapshot_push { dm with _data := d }).snapshots
          = s0 :: (t ++ [d]) := by
        simp [DataManager.snapshot_push, hs]
        rw [if_neg (by simpa using hcap)]
        rfl
      have hm1 : (DataManager.snapshot_push { dm with _data := d }).max_snapshots
          = dm.max_snapshots := rfl
      have hres := ih (DataManager.snapshot_push { dm with _data := d }) (t ++ [d]) hs1
        (by rw [hm1]; exact hN) (by rw [hm1]; simp; omega)
      rw [hres, hm1]
      have hi : (t ++ [d]).length + rest.length + 1 - dm.max_snapshots
          = t.length + (d :: rest).length + 1 - dm.max_snapshots := by
        simp
        omega
      rw [hi]
      have hl : (t ++ [d]) ++ rest = t ++ d :: rest := by
        rw [List.append_assoc]
        rfl
      rw [hl]

/-- A successful load leaves exactly the loaded snapshot and keeps the
configured capacity. -/
theorem loadSuccess_state (dm : DataManager) (path : String) (d : Value)
    (h : 1 ≤ dm.max_snapshots) :
    (loadSuccess dm path d).snapshots = [d] ∧
    (loadSuccess dm path d).max_snapshots = dm.max_snapshots := by
  have hns : ¬ (dm.max_snapshots ≤ ([] : List Value).length) := by
    simp only [List.length_nil]
    omega
  constructor
  · simp [loadSuccess, DataManager.init_data, DataManager.snapshot_push, hns]
  · rfl

/-- C5: from a freshly loaded store with capacity at least two, after
capacity-plus-four pushes the history length equals the capacity, the
bottom entry is still the load-time snapshot, and the top entry is the
most recent push: eviction at capacity removes index one, never index
zero. -/
theorem c5_snapshot_eviction (dm : DataManager) (path : String) (d0 : Value) (docs : List Value)
    (hN : 2 ≤ dm.max_snapshots) (hlen : docs.length = dm.max_snapshots + 4) :
    (pushMany (loadSuccess dm path d0) docs).snapshots.length = dm.max_snapshots ∧
    (pushMany (loadSuccess dm path d0) docs).snapshots.head? = some d0 ∧
    (pushMany (loadSuccess dm path d0) docs).snapshots.getLast? = docs.getLast? := by
  obtain ⟨hs, hm⟩ := loadSuccess_state dm path d0 (by omega)
  have hmain := pushMany_snapshots docs (loadSuccess dm path d0) d0 [] hs
    (by rw [hm]; exact hN) (by rw [hm]; simp; omega)
  rw [hm] at hmain
  simp only [List.nil_append, List.length_nil, Nat.zero_add] at hmain
  have hk : docs.length + 1 - dm.max_snapshots = 5 := by omega
  rw [hk] at hmain
  have hdl : (docs.drop 5).length = dm.max_snapshots - 1 := by
    rw [List.length_drop]
    omega
  refine ⟨?_, ?_, ?_⟩
  · rw [hmain]
    simp [hdl]
    omega
  · rw [hmain]
    exact List.head?_cons
  · rw [hmain]
    have hne : docs.drop 5 ≠ [] := by
      intro he
      rw [he] at hdl
      simp at hdl
      omega
    obtain ⟨b, L, hbl⟩ := List.exists_cons_of_ne_nil hne
    rw [hbl, List.getLast?_cons_cons, ← hbl]
    exact getLast?_drop_of_lt docs 5 (by omega)

/-- Ten documents pushed in the concrete eviction run below. -/
def tenDocs : List Value :=
  [.vInt 1, .vInt 2, .vInt 3, .vInt 4, .vInt 5,
   .vInt 6, .vInt 7, .vInt 8, .vInt 9, .vInt 10]

/-- C5 witness: the eviction statement at the default capacity of six
with ten pushes. -/
theorem c5_snapshot_eviction_witness :
    (pushMany (loadSuccess DataManager.new ("p") (.vInt 0)) tenDocs).snapshots.length = 6 ∧
    (pushMany (loadSuccess DataManager.new ("p") (.vInt 0)) tenDocs).snapshots.head?
      = some (.vInt 0) ∧
    (pushMany (loadSuccess DataManager.new ("p") (.vInt 0)) tenDocs).snapshots.getLast?
      = tenDocs.getLast? :=
  c5_snapshot_eviction DataManager.new ("p") (.vInt 0) tenDocs (by decide) (by decide)

/-! ## Claim C7: structured text round trip -/


theorem strDataAppend (s t : String) : (s ++ t).data = s.data ++ t.data := by
  cases s
  cases t
  rfl

theorem singletonData (c : Char) : (String.singleton c).data = [c] := rfl

theorem strEta (s : String) : String.mk s.data = s := rfl

theorem splitOnChar_cons_sep (cs : List Char) :
    splitOnChar ',' (',' :: cs) = [] :: splitOnChar ',' cs := by
  simp [splitOnChar]

theorem splitOnChar_ne_nil (c : Char) (cs : List Char) : splitOnChar c cs ≠ [] := by
  induction cs with
  | nil => simp [splitOnChar]
  | cons x xs ih =>
    by_cases hx : x == c
    · simp [splitOnChar, hx]
    · simp only [splitOnChar, hx]
      rcases h : splitOnChar c xs with _ | ⟨seg, t⟩
      · exact absurd h ih
      · simp

theorem splitOnChar_append_nosep (a cs : List Char) (seg : List Char) (t : List (List Char))
    (ha : ∀ x ∈ a, (x == ',') = false) (h : splitOnChar ',' cs = seg :: t) :
    splitOnChar ',' (a ++ cs) = (a ++ seg) :: t := by
  induction a with
  | nil => simpa using h
  | cons x xs ih =>
    have hx : (x == ',') = false := ha x (by simp)
    have hrec := ih (fun y hy => ha y (by simp [hy]))
    simp only [List.cons_append, splitOnChar, hx, List.append_eq]
    rw [hrec]
    simp

theorem splitKeep_cons_sep (p : Char → Bool) (c : Char) (cs : List Char) (hc : p c = true) :
    splitKeep p (c :: cs) = ([], some c) :: splitKeep p cs := by
  simp [splitKeep, hc]

theorem splitKeep_append_nosep (p : Char → Bool) (a cs : List Char) (seg : List Char)
    (d : Option Char) (t : List (List Char × Option Char))
    (ha : ∀ x ∈ a, p x = false) (h : splitKeep p cs = (seg, d) :: t) :
    splitKeep p (a ++ cs) = (a ++ seg, d) :: t := by
  induction a with
  | nil => simpa using h
  | cons x xs ih =>
    have hx : p x = false := ha x (by simp)
    have hrec := ih (fun y hy => ha y (by simp [hy]))
    simp only [List.cons_append, splitKeep, hx, List.append_eq]
    rw [hrec]
    simp

theorem trimList_cons_space (cs : List Char) : trimList (' ' :: cs) = trimList cs := by
  simp [trimList, List.dropWhile, isWs]

theorem splitAtFirstChar_sep (c : Char) (a b : List Char)
    (ha : ∀ x ∈ a, (x == c) = false) :
    splitAtFirstChar c (a ++ c :: b) = some (a, b) := by
  induction a with
  | nil => simp [splitAtFirstChar]
  | cons x xs ih =>
    have hx : (x == c) = false := ha x (by simp)
    have hrec := ih (fun y hy => ha y (by simp [hy]))
    simp only [List.cons_append, splitAtFirstChar, hx, List.append_eq]
    rw [hrec]
    simp

/-- Cleanliness for a list item: no quote of either kind and no newline. -/
def cleanItem (s : String) : Prop :=
  ∀ c ∈ s.data, c ≠ Char.ofNat 39 ∧ c ≠ Char.ofNat 34 ∧ c ≠ '\n'

/-- Cleanliness for a dict key: nonempty, free of colons and commas, no
surrounding whitespace. -/
def cleanKey (s : String) : Prop :=
  s.data ≠ [] ∧ trimList s.data = s.data ∧ ∀ c ∈ s.data, c ≠ ':' ∧ c ≠ ','

/-- Cleanliness for a dict value: nonempty, comma-free, no surrounding
whitespace. -/
def cleanVal (s : String) : Prop :=
  s.data ≠ [] ∧ trimList s.data = s.data ∧ ∀ c ∈ s.data, c ≠ ','

/-- The character content of one rendered dict entry. -/
def segChars (kv : String × String) : List Char :=
  kv.1.data ++ ':' :: ' ' :: kv.2.data

theorem parseVal_clean (v : String) (hv : cleanVal v) :
    parseVal (' ' :: v.data) = some v := by
  obtain ⟨hne, htrim, _⟩ := hv
  have h1 : trimList (' ' :: v.data) = v.data := by rw [trimList_cons_space, htrim]
  simp only [parseVal, h1]
  rw [if_neg (by simpa using hne)]

theorem parseSegment_clean (k v : String) (hk : cleanKey k) (hv : cleanVal v) :
    parseSegment (segChars (k, v)) = some (k, v) := by
  obtain ⟨hkne, hktrim, hkfree⟩ := hk
  have hsplit : splitAtFirstChar ':' (k.data ++ ':' :: ' ' :: v.data) = some (k.data, ' ' :: v.data) := by
    apply splitAtFirstChar_sep
    intro x hx
    simpa using (hkfree x hx).1
  simp only [parseSegment, segChars, hsplit, hktrim]
  rw [if_neg (by simpa using hkne)]
  rw [parseVal_clean v hv]

theorem parseSegment_clean_sp (k v : String) (hk : cleanKey k) (hv : cleanVal v) :
    parseSegment (' ' :: segChars (k, v)) = some (k, v) := by
  obtain ⟨hkne, hktrim, hkfree⟩ := hk
  have hsplit : splitAtFirstChar ':' ((' ' :: k.data) ++ ':' :: ' ' :: v.data)
      = some (' ' :: k.data, ' ' :: v.data) := by
    apply splitAtFirstChar_sep
    intro x hx
    rcases List.mem_cons.mp hx with rfl | hx2
    · decide
    · simpa using (hkfree x hx2).1
  have hseg : ' ' :: segChars (k, v) = (' ' :: k.data) ++ ':' :: ' ' :: v.data := rfl
  rw [hseg]
  simp only [parseSegment, hsplit, trimList_cons_space, hktrim]
  rw [if_neg (by simpa using hkne)]
  rw [parseVal_clean v hv]

/-- The rendered text of the dict entries after the first. -/
def dictRest : List (String × String) → List Char
  | [] => []
  | kv :: r => ',' :: ' ' :: (segChars kv ++ dictRest r)

theorem segChars_comma_free (kv : String × String) (hk : cleanKey kv.1) (hv : cleanVal kv.2) :
    ∀ x ∈ segChars kv, (x == ',') = false := by
  intro x hx
  simp only [segChars, List.mem_append, List.mem_cons] at hx
  rcases hx with hx | hx | hx | hx
  · simpa using (hk.2.2 x hx).2
  · subst hx
    decide
  · subst hx
    decide
  · simpa using (hv.2.2 x hx)

theorem dict_chunks (rest : List (String × String)) :
    ∀ a : List Char, (∀ x ∈ a, (x == ',') = false) →
    (∀ kv ∈ rest, cleanKey kv.1 ∧ cleanVal kv.2) →
    splitOnChar ',' (a ++ dictRest rest) = a :: rest.map (fun p => ' ' :: segChars p) := by
  induction rest with
  | nil =>
    intro a ha _
    have h0 : splitOnChar ',' ([] : List Char) = [] :: [] := rfl
    have := splitOnChar_append_nosep a [] [] [] ha h0
    simpa [dictRest] using this
  | cons kv r ih =>
    intro a ha hclean
    have hkv := hclean kv (by simp)
    have hY : (' ' :: (segChars kv ++ dictRest r)) = (' ' :: segChars kv) ++ dictRest r := by simp
    have hsp : ∀ x ∈ (' ' :: segChars kv), (x == ',') = false := by
      intro x hx
      rcases List.mem_cons.mp hx with rfl | hx2
      · decide
      · exact segChars_comma_free kv hkv.1 hkv.2 x hx2
    have hrec := ih (' ' :: segChars kv) hsp (fun p hp => hclean p (by simp [hp]))
    have hstep : splitOnChar ',' (dictRest (kv :: r))
        = [] :: ((' ' :: segChars kv) :: r.map (fun p => ' ' :: segChars p)) := by
      show splitOnChar ',' (',' :: (' ' :: (segChars kv ++ dictRest r))) = _
      rw [splitOnChar_cons_sep, hY, hrec]
    have := splitOnChar_append_nosep a (dictRest (kv :: r)) []
      ((' ' :: segChars kv) :: r.map (fun p => ' ' :: segChars p)) ha hstep
    simpa using this

theorem segsParse_map (rest : List (String × String))
    (h : ∀ kv ∈ rest, cleanKey kv.1 ∧ cleanVal kv.2) :
    segsParse (rest.map (fun p => ' ' :: segChars p)) = some rest := by
  induction rest with
  | nil => rfl
  | cons kv r ih =>
    have hkv := h kv (by simp)
    have hps : parseSegment (' ' :: segChars kv) = some kv := by
      have := parseSegment_clean_sp kv.1 kv.2 hkv.1 hkv.2
      simpa using this
    simp only [List.map, segsParse, hps]
    rw [ih (fun p hp => h p (by simp [hp]))]

theorem strDictSet_of_not_mem (acc : List (String × String)) (k v : String)
    (h : k ∉ acc.map Prod.fst) : strDictSet acc k v = acc ++ [(k, v)] := by
  induction acc with
  | nil => rfl
  | cons kv t ih =>
    simp only [List.map, List.mem_cons] at h
    push_neg at h
    have hk : ¬ ((kv.1 == k) = true) := by
      simp only [beq_iff_eq]
      intro he
      exact h.1 he.symm
    simp only [strDictSet, if_neg hk]
    rw [ih h.2]
    simp

theorem foldl_strDictSet (es : List (String × String)) :
    ∀ acc : List (String × String), ((acc ++ es).map Prod.fst).Nodup →
    es.foldl (fun d kv => strDictSet d kv.1 kv.2) acc = acc ++ es := by
  induction es with
  | nil =>
    intro acc _
    simp
  | cons kv r ih =>
    intro acc hnd
    have hnotin : kv.1 ∉ acc.map Prod.fst := by
      intro hmem
      rw [List.map_append] at hnd
      have := (List.nodup_append.mp hnd).2.2
      exact (this hmem) (by simp)
    have hstep : strDictSet acc kv.1 kv.2 = acc ++ [(kv.1, kv.2)] :=
      strDictSet_of_not_mem acc kv.1 kv.2 hnotin
    have hassoc : (acc ++ [(kv.1, kv.2)]) ++ r = acc ++ kv :: r := by simp
    have hnd2 : (((acc ++ [(kv.1, kv.2)]) ++ r).map Prod.fst).Nodup := by
      rw [hassoc]
      simpa using hnd
    have := ih (acc ++ [(kv.1, kv.2)]) hnd2
    simp only [List.foldl, hstep] at this ⊢
    rw [this, hassoc]

theorem getLast?_ne_some_nil (L : List (List Char)) (h : ∀ x ∈ L, x ≠ []) :
    L.getLast? ≠ some [] := by
  induction L with
  | nil => simp
  | cons a t ih =>
    cases t with
    | nil =>
      have ha := h a (by simp)
      simpa [List.getLast?] using ha
    | cons b t2 =>
      rw [List.getLast?_cons_cons]
      exact ih (fun x hx => h x (by simp [hx]))

theorem dict_strings_eq (es : List (String × String)) :
    (es.map (fun p => (p.1, Value.vStr p.2))).map (fun q => q.1 ++ ": " ++ pyStr q.2)
      = es.map (fun p => p.1 ++ ": " ++ p.2) := by
  simp [List.map_map, Function.comp, pyStr]

theorem joinSepDict_data (kv : String × String) (rest : List (String × String)) :
    (joinSep (", ") ((kv :: rest).map (fun p => p.1 ++ ": " ++ p.2))).data
      = segChars kv ++ dictRest rest := by
  induction rest generalizing kv with
  | nil => simp [joinSep, strDataAppend, segChars, dictRest]
  | cons kv2 r ih =>
    have hj : joinSep (", ") ((kv :: kv2 :: r).map (fun p => p.1 ++ ": " ++ p.2))
        = (kv.1 ++ ": " ++ kv.2) ++ ", " ++ joinSep (", ") ((kv2 :: r).map (fun p => p.1 ++ ": " ++ p.2)) := rfl
    rw [hj]
    simp only [strDataAppend, ih kv2]
    simp [segChars, dictRest, strDataAppend]

theorem toTextDict_data (kv : String × String) (rest : List (String × String)) :
    (to_text (.vDict ((kv :: rest).map (fun p => (p.1, Value.vStr p.2))))).data
      = segChars kv ++ dictRest rest := by
  have h1 : to_text (.vDict ((kv :: rest).map (fun p => (p.1, Value.vStr p.2))))
      = joinSep (", ") ((kv :: rest).map (fun p => p.1 ++ ": " ++ p.2)) := by
    show joinSep (", ") (((kv :: rest).map (fun p => (p.1, Value.vStr p.2))).map
      (fun q => q.1 ++ ": " ++ pyStr q.2)) = _
    rw [dict_strings_eq]
  rw [h1, joinSepDict_data]

theorem segChars_ne_nil (kv : String × String) : segChars kv ≠ [] := by
  simp [segChars]

theorem parse_dict_to_text (es : List (String × String))
    (hclean : ∀ kv ∈ es, cleanKey kv.1 ∧ cleanVal kv.2)
    (hnodup : (es.map Prod.fst).Nodup) :
    parse_dict (to_text (.vDict (es.map (fun p => (p.1, Value.vStr p.2))))) = some es := by
  cases es with
  | nil => rfl
  | cons kv rest =>
    have hkv := hclean kv (by simp)
    have hdata := toTextDict_data kv rest
    have hchunks : splitOnChar ',' (segChars kv ++ dictRest rest)
        = segChars kv :: rest.map (fun p => ' ' :: segChars p) :=
      dict_chunks rest (segChars kv) (segChars_comma_free kv hkv.1 hkv.2)
        (fun p hp => hclean p (by simp [hp]))
    have hne : ¬ (segChars kv ++ dictRest rest).isEmpty = true := by
      simp [segChars]
    have hlast : ¬ ((segChars kv :: rest.map (fun p => ' ' :: segChars p)).getLast? = some []) := by
      apply getLast?_ne_some_nil
      intro x hx
      rcases List.mem_cons.mp hx with rfl | hx2
      · exact segChars_ne_nil kv
      · obtain ⟨p, _, hp⟩ := List.mem_map.mp hx2
        rw [← hp]
        simp
    have hps : parseSegment (segChars kv) = some kv := by
      have := parseSegment_clean kv.1 kv.2 hkv.1 hkv.2
      simpa using this
    have hsp : segsParse (segChars kv :: rest.map (fun p => ' ' :: segChars p))
        = some (kv :: rest) := by
      simp only [segsParse, hps]
      rw [segsParse_map rest (fun p hp => hclean p (by simp [hp]))]
    have hfold := foldl_strDictSet (kv :: rest) [] (by simpa using hnodup)
    unfold parse_dict
    rw [hdata, if_neg hne, hchunks]
    simp only [hlast, if_false, hsp, hfold]
    simp

/-- The rendered text of the list items after the first, starting at the
separator that follows the closing quote of the previous item. -/
def listRest : List String → List Char
  | [] => []
  | s :: r => ',' :: ' ' :: Char.ofNat 39 :: (s.data ++ Char.ofNat 39 :: listRest r)

theorem list_strings_eq (ss : List String) :
    (ss.map Value.vStr).map
        (fun e => String.singleton (Char.ofNat 39) ++ pyStr e ++ String.singleton (Char.ofNat 39))
      = ss.map (fun s => String.singleton (Char.ofNat 39) ++ s ++ String.singleton (Char.ofNat 39)) := by
  simp [List.map_map, Function.comp, pyStr]

theorem toTextList_data (s : String) (rest : List String) :
    (to_text (.vList ((s :: rest).map Value.vStr))).data
      = Char.ofNat 39 :: (s.data ++ Char.ofNat 39 :: listRest rest) := by
  induction rest generalizing s with
  | nil =>
    show (joinSep (", ") (((s :: []).map Value.vStr).map
      (fun e => String.singleton (Char.ofNat 39) ++ pyStr e ++ String.singleton (Char.ofNat 39)))).data = _
    rw [list_strings_eq]
    simp [joinSep, strDataAppend, listRest, String.singleton]
  | cons s2 r ih =>
    show (joinSep (", ") (((s :: s2 :: r).map Value.vStr).map
      (fun e => String.singleton (Char.ofNat 39) ++ pyStr e ++ String.singleton (Char.ofNat 39)))).data = _
    rw [list_strings_eq]
    have hj : joinSep (", ") ((s :: s2 :: r).map
        (fun x => String.singleton (Char.ofNat 39) ++ x ++ String.singleton (Char.ofNat 39)))
      = (String.singleton (Char.ofNat 39) ++ s ++ String.singleton (Char.ofNat 39)) ++ ", "
        ++ joinSep (", ") ((s2 :: r).map
          (fun x => String.singleton (Char.ofNat 39) ++ x ++ String.singleton (Char.ofNat 39))) := rfl
    rw [hj]
    have ih2 : (joinSep (", ") ((s2 :: r).map
        (fun x => String.singleton (Char.ofNat 39) ++ x ++ String.singleton (Char.ofNat 39)))).data
        = Char.ofNat 39 :: (s2.data ++ Char.ofNat 39 :: listRest r) := by
      have := ih s2
      rw [show to_text (.vList ((s2 :: r).map Value.vStr))
          = joinSep (", ") ((s2 :: r).map
            (fun x => String.singleton (Char.ofNat 39) ++ x ++ String.singleton (Char.ofNat 39))) from by
        show joinSep (", ") (((s2 :: r).map Value.vStr).map
          (fun e => String.singleton (Char.ofNat 39) ++ pyStr e ++ String.singleton (Char.ofNat 39))) = _
        rw [list_strings_eq]] at this
      exact this
    simp only [strDataAppend, ih2]
    simp [listRest, String.singleton, strDataAppend]

theorem cleanItem_no_quote (s : String) (hs : cleanItem s) :
    ∀ x ∈ s.data, isQuote x = false := by
  intro x hx
  obtain ⟨h1, h2, _⟩ := hs x hx
  simp [isQuote]
  exact ⟨h1, h2⟩

theorem list_loop (rest : List String) :
    ∀ s : String, cleanItem s → (∀ x ∈ rest, cleanItem x) →
    chunkLoop (Char.ofNat 39) true
        (splitKeep isQuote (s.data ++ Char.ofNat 39 :: listRest rest)) = some (s :: rest) := by
  induction rest with
  | nil =>
    intro s hs _
    have hq : splitKeep isQuote ([Char.ofNat 39] : List Char)
        = ([], some (Char.ofNat 39)) :: [([], none)] := rfl
    have hsk : splitKeep isQuote (s.data ++ [Char.ofNat 39])
        = (s.data ++ [], some (Char.ofNat 39)) :: [([], none)] :=
      splitKeep_append_nosep isQuote s.data [Char.ofNat 39] [] (some (Char.ofNat 39))
        [([], none)] (cleanItem_no_quote s hs) hq
    show chunkLoop (Char.ofNat 39) true (splitKeep isQuote (s.data ++ [Char.ofNat 39])) = _
    rw [hsk]
    simp [chunkLoop, strEta]
  | cons s2 r ih =>
    intro s hs hrest
    have hs2 := hrest s2 (by simp)
    have hq : splitKeep isQuote
          (Char.ofNat 39 :: (s2.data ++ Char.ofNat 39 :: listRest r))
        = ([], some (Char.ofNat 39)) :: splitKeep isQuote (s2.data ++ Char.ofNat 39 :: listRest r) :=
      splitKeep_cons_sep isQuote (Char.ofNat 39) _ rfl
    have hsep : splitKeep isQuote
          ([',', ' '] ++ (Char.ofNat 39 :: (s2.data ++ Char.ofNat 39 :: listRest r)))
        = ([',', ' '], some (Char.ofNat 39)) :: splitKeep isQuote (s2.data ++ Char.ofNat 39 :: listRest r) := by
      have := splitKeep_append_nosep isQuote [',', ' ']
        (Char.ofNat 39 :: (s2.data ++ Char.ofNat 39 :: listRest r)) []
        (some (Char.ofNat 39)) (splitKeep isQuote (s2.data ++ Char.ofNat 39 :: listRest r))
        (by decide) hq
      simpa using this
    have hmain : splitKeep isQuote (s.data ++ Char.ofNat 39 :: listRest (s2 :: r))
        = (s.data, some (Char.ofNat 39))
          :: ([',', ' '], some (Char.ofNat 39))
          :: splitKeep isQuote (s2.data ++ Char.ofNat 39 :: listRest r) := by
      have hq2 : splitKeep isQuote (Char.ofNat 39 :: listRest (s2 :: r))
          = ([], some (Char.ofNat 39)) :: splitKeep isQuote (listRest (s2 :: r)) :=
        splitKeep_cons_sep isQuote (Char.ofNat 39) _ rfl
      have hlr : splitKeep isQuote (listRest (s2 :: r))
          = ([',', ' '], some (Char.ofNat 39))
            :: splitKeep isQuote (s2.data ++ Char.ofNat 39 :: listRest r) := by
        show splitKeep isQuote
          ([',', ' '] ++ (Char.ofNat 39 :: (s2.data ++ Char.ofNat 39 :: listRest r))) = _
        exact hsep
      have := splitKeep_append_nosep isQuote s.data (Char.ofNat 39 :: listRest (s2 :: r)) []
        (some (Char.ofNat 39)) (splitKeep isQuote (listRest (s2 :: r)))
        (cleanItem_no_quote s hs) hq2
      rw [this, hlr]
      simp
    rw [hmain]
    have hrec := ih s2 hs2 (fun x hx => hrest x (by simp [hx]))
    simp only [chunkLoop]
    rw [if_pos (by simp)]
    have hsepchunk : isSepChunk [',', ' '] = true := rfl
    simp only [hsepchunk, Bool.and_self, if_pos]
    rw [if_pos (by simp)]
    rw [hrec]
    simp [strEta]

theorem parse_list_to_text (ss : List String) (hclean : ∀ s ∈ ss, cleanItem s) :
    parse_list (to_text (.vList (ss.map Value.vStr))) = some ss := by
  cases ss with
  | nil => rfl
  | cons s rest =>
    have hdata := toTextList_data s rest
    have hne : ¬ (Char.ofNat 39 :: (s.data ++ Char.ofNat 39 :: listRest rest)).isEmpty = true := by
      simp
    have hsk : splitKeep isQuote (Char.ofNat 39 :: (s.data ++ Char.ofNat 39 :: listRest rest))
        = ([], some (Char.ofNat 39))
          :: splitKeep isQuote (s.data ++ Char.ofNat 39 :: listRest rest) :=
      splitKeep_cons_sep isQuote (Char.ofNat 39) _ rfl
    have hloop := list_loop rest s (hclean s (by simp)) (fun x hx => hclean x (by simp [hx]))
    unfold parse_list
    rw [hdata, if_neg hne, hsk]
    simpa using hloop

theorem data_category_strList (ss : List String) :
    data_category (.vList (ss.map Value.vStr)) = .LIST := by
  simp only [data_category]
  rw [if_pos]
  rw [List.all_eq_true]
  intro x hx
  obtain ⟨s, _, hs⟩ := List.mem_map.mp hx
  rw [← hs]
  rfl

theorem data_category_strDict (es : List (String × String)) :
    data_category (.vDict (es.map (fun p => (p.1, Value.vStr p.2)))) = .DICT := by
  simp only [data_category]
  rw [if_pos]
  rw [List.all_eq_true]
  intro x hx
  obtain ⟨p, _, hp⟩ := List.mem_map.mp hx
  rw [← hp]
  rfl

/-- A regex engine that rejects everything, used as a concrete matcher in
closed instances (parse_text ignores it outside the SCALAR branch). -/
def fmFalse : String → String → Bool := fun _ _ => false

instance (s : String) : Decidable (cleanItem s) := by
  unfold cleanItem
  infer_instance

instance (s : String) : Decidable (cleanKey s) := by
  unfold cleanKey
  exact instDecidableAnd

instance (s : String) : Decidable (cleanVal s) := by
  unfold cleanVal
  exact instDecidableAnd

/-- C7 counterexample: the list containing the integer three has no
embedded comma, colon or quote, is classified LIST, yet parsing its
rendered text returns the string three — parse_dict and parse_list
produce strings, so the round trip does not reproduce the original value
exactly. -/
theorem c7_round_trip_counterexample :
    data_category (Value.vList [.vInt 3]) = .LIST ∧
    parse_text fmFalse (to_text (.vList [.vInt 3])) (data_category (.vList [.vInt 3])) none
      = (.plist [("3")], true) ∧
    parsedToValue (ParsedVal.plist [("3")]) ≠ Value.vList [.vInt 3] := by
  refine ⟨rfl, by decide, ?_⟩
  simp [parsedToValue]

/-- C7 amended: the round trip is exact precisely on string-valued
collections: for every list of strings free of quotes and newlines, and
for every dict of nonempty trim-invariant strings with comma-free keys
and values, colon-free keys and distinct keys, parse applied to to_text
with the value category returns the original strings marked valid.  For
other scalar element types parsing returns their string forms (see the
counterexample). -/
theorem c7_round_trip :
    (∀ (fm : String → String → Bool) (p : Option String) (ss : List String),
      (∀ s ∈ ss, cleanItem s) →
      data_category (.vList (ss.map Value.vStr)) = .LIST ∧
      parse_text fm (to_text (.vList (ss.map Value.vStr))) .LIST p = (.plist ss, true)) ∧
    (∀ (fm : String → String → Bool) (p : Option String) (es : List (String × String)),
      (∀ kv ∈ es, cleanKey kv.1 ∧ cleanVal kv.2) →
      (es.map Prod.fst).Nodup →
      data_category (.vDict (es.map (fun q => (q.1, Value.vStr q.2)))) = .DICT ∧
      parse_text fm (to_text (.vDict (es.map (fun q => (q.1, Value.vStr q.2))))) .DICT p
        = (.pdict es, true)) := by
  constructor
  · intro fm p ss hclean
    refine ⟨data_category_strList ss, ?_⟩
    simp [parse_text, parse_list_to_text ss hclean]
  · intro fm p es hclean hnodup
    refine ⟨data_category_strDict es, ?_⟩
    simp [parse_text, parse_dict_to_text es hclean hnodup]

/-- C7 witness: the amended round trip at a concrete string list and a
concrete string dict. -/
theorem c7_round_trip_witness :
    parse_text fmFalse (to_text (.vList ([("ab"), ("c d")].map Value.vStr))) .LIST none
      = (.plist [("ab"), ("c d")], true) ∧
    parse_text fmFalse (to_text (.vDict ([(("k1"), ("v1")), (("k2"), ("v2"))].map
        (fun q => (q.1, Value.vStr q.2)))) ) .DICT none
      = (.pdict [(("k1"), ("v1")), (("k2"), ("v2"))], true) :=
  ⟨(c7_round_trip.1 fmFalse none [("ab"), ("c d")] (by decide)).2,
   (c7_round_trip.2 fmFalse none [(("k1"), ("v1")), (("k2"), ("v2"))] (by decide) (by decide)).2⟩
